import Mathlib

set_option maxRecDepth 100000

/-!
Verification development for the Bible-study rotation bot (src/main.py).

The Python program manipulates timezone-aware `datetime` values in the
Australia/Brisbane timezone.  Brisbane has a fixed UTC offset (no daylight
saving), so `pytz` localization is the identity on wall-clock fields and
aware-datetime comparison coincides with wall-clock comparison.  A Python
datetime is therefore embedded as a record of calendar and clock fields,
linearized to microseconds for comparison, exactly as CPython compares
datetimes of equal offset.

Dates in the proleptic Gregorian calendar (CPython's calendar) are
linearized through `dayNumber`, counting days from 0001-01-01 = day 1,
which is the linearization `datetime.toordinal` uses.
-/

/-- Embedding of a Python `datetime` in the fixed-offset Brisbane timezone. -/
structure PyDateTime where
  year : Nat
  month : Nat
  day : Nat
  hour : Nat
  minute : Nat
  second : Nat
  usec : Nat
deriving DecidableEq, Repr

/-- Gregorian leap-year rule, as in CPython's `calendar`/`datetime`. -/
def isLeap (y : Nat) : Bool :=
  decide ((4 ∣ y ∧ ¬ (100 ∣ y)) ∨ 400 ∣ y)

/-- Length of a month in the given year, as `datetime` validates it. -/
def daysInMonth (y m : Nat) : Nat :=
  if m = 2 then (if isLeap y then 29 else 28)
  else if m = 4 ∨ m = 6 ∨ m = 9 ∨ m = 11 then 30
  else 31

/-- Length of a year. -/
def daysInYear (y : Nat) : Nat :=
  if isLeap y then 366 else 365

/-- Number of leap years in `[1, n]`. -/
def leapCount (n : Nat) : Nat :=
  n / 4 - n / 100 + n / 400

/-- Total days in months `1..k` of year `y`. -/
def monthsDays (y : Nat) : Nat → Nat
  | 0 => 0
  | k + 1 => monthsDays y k + daysInMonth y (k + 1)

/-- One-based day of year of the date `(y, m, d)`. -/
def dayOfYear (y m d : Nat) : Nat :=
  monthsDays y (m - 1) + d

/-- Day count with 0001-01-01 = day 1 (the `datetime.toordinal` linearization). -/
def dayNumber (y m d : Nat) : Nat :=
  365 * (y - 1) + leapCount (y - 1) + dayOfYear y m d

/-- Python `datetime.weekday()`: Monday = 0 .. Sunday = 6.
0001-01-01 of the proleptic Gregorian calendar is a Monday. -/
def weekday (y m d : Nat) : Nat :=
  (dayNumber y m d + 6) % 7

/-- The field ranges `datetime.__new__` accepts. -/
def ValidDT (t : PyDateTime) : Prop :=
  1 ≤ t.year ∧ t.year ≤ 9999 ∧ 1 ≤ t.month ∧ t.month ≤ 12 ∧
  1 ≤ t.day ∧ t.day ≤ daysInMonth t.year t.month ∧
  t.hour ≤ 23 ∧ t.minute ≤ 59 ∧ t.second ≤ 59 ∧ t.usec ≤ 999999

instance (t : PyDateTime) : Decidable (ValidDT t) := by
  unfold ValidDT; infer_instance

/-- Linearization of a datetime to microseconds; aware datetimes of the same
fixed offset compare by this quantity in Python. -/
def toUsec (t : PyDateTime) : Nat :=
  ((((dayNumber t.year t.month t.day) * 24 + t.hour) * 60 + t.minute) * 60
      + t.second) * 1000000 + t.usec

/-- Recover `(year, dayOfYear)` from a day number by peeling whole years.
`fuel` bounds the recursion; callers pass the day number itself, which is
always sufficient since every year has at least 365 days. -/
def yearFromDays : Nat → Nat → Nat → Nat × Nat
  | 0, y, n => (y, n)
  | fuel + 1, y, n =>
    if n ≤ daysInYear y then (y, n)
    else yearFromDays fuel (y + 1) (n - daysInYear y)

/-- Recover `(month, day)` from a day-of-year by peeling whole months. -/
def monthDayFromDoy (y : Nat) : Nat → Nat → Nat → Nat × Nat
  | 0, m, n => (m, n)
  | fuel + 1, m, n =>
    if n ≤ daysInMonth y m then (m, n)
    else monthDayFromDoy y fuel (m + 1) (n - daysInMonth y m)

/-- Inverse of `dayNumber`: the calendar date of a (positive) day number. -/
def fromDayNumber (n : Nat) : Nat × Nat × Nat :=
  let yd := yearFromDays n 1 n
  let md := monthDayFromDoy yd.1 12 1 yd.2
  (yd.1, md.1, md.2)

/-- Python `dt + timedelta(days = k)`: shift the date, keep the clock fields. -/
def addDays (t : PyDateTime) (k : Nat) : PyDateTime :=
  let ymd := fromDayNumber (dayNumber t.year t.month t.day + k)
  { t with year := ymd.1, month := ymd.2.1, day := ymd.2.2 }

/-!
## String machinery

`parse_date_string` works on strings via `date_str.split()[-1].split('/')`
and `int(...)`.  Python `str.split()` (no argument) splits on runs of ASCII
and a few other whitespace characters and drops empty tokens;
`str.split('/')` splits at every slash keeping empty tokens; `int(s)`
strips surrounding whitespace, accepts an optional sign, and then decimal
digits (the CPython extras - unicode digits and underscore separators -
are not modeled; they only change which strings parse at all).
-/

/-- The whitespace characters `str.split()` splits on. -/
def isSpaceCh (c : Char) : Bool :=
  c = ' ' ∨ c = '\t' ∨ c = '\n' ∨ c = '\r' ∨ c = '\x0b' ∨ c = '\x0c'

/-- ASCII decimal digit test. -/
def isDigitCh (c : Char) : Bool :=
  '0' ≤ c ∧ c ≤ '9'

/-- Numeric value of an ASCII digit. -/
def digitVal (c : Char) : Nat :=
  c.toNat - 48

/-- Worker for `splitWs`, accumulating the current token reversed. -/
def splitWsAux : List Char → List Char → List (List Char)
  | [], acc => if acc = [] then [] else [acc.reverse]
  | c :: cs, acc =>
    if isSpaceCh c then
      (if acc = [] then splitWsAux cs [] else acc.reverse :: splitWsAux cs [])
    else splitWsAux cs (c :: acc)

/-- Python `s.split()`: whitespace-separated tokens, empties dropped. -/
def splitWs (l : List Char) : List (List Char) :=
  splitWsAux l []

/-- Worker for `splitSlash`, accumulating the current piece reversed. -/
def splitSlashAux : List Char → List Char → List (List Char)
  | [], acc => [acc.reverse]
  | c :: cs, acc =>
    if c = '/' then acc.reverse :: splitSlashAux cs []
    else splitSlashAux cs (c :: acc)

/-- Python `s.split('/')`: split at every slash, empties kept. -/
def splitSlash (l : List Char) : List (List Char) :=
  splitSlashAux l []

/-- Value of a nonempty all-digit character list, most significant first. -/
def parseDigits (l : List Char) : Option Nat :=
  if l ≠ [] ∧ l.all isDigitCh then
    some (l.foldl (fun acc c => 10 * acc + digitVal c) 0)
  else none

/-- Strip whitespace from both ends. -/
def stripWs (l : List Char) : List Char :=
  ((l.dropWhile isSpaceCh).reverse.dropWhile isSpaceCh).reverse

/-- Python `int(s)` on a string, `none` when `int` raises `ValueError`. -/
def pyInt (l : List Char) : Option Int :=
  match stripWs l with
  | '+' :: rest => (parseDigits rest).map Int.ofNat
  | '-' :: rest => (parseDigits rest).map (fun n => -(n : Int))
  | l' => (parseDigits l').map Int.ofNat

/-- Two-digit zero-padded rendering, as `%d` / `%m` in `strftime` produce
for the in-range day and month values. -/
def pad2 (n : Nat) : List Char :=
  [Char.ofNat (48 + n / 10), Char.ofNat (48 + n % 10)]

/-- `%a` under the C locale: abbreviated weekday name, Monday = 0. -/
def dayName : Nat → List Char
  | 0 => "Mon".data
  | 1 => "Tue".data
  | 2 => "Wed".data
  | 3 => "Thu".data
  | 4 => "Fri".data
  | 5 => "Sat".data
  | _ => "Sun".data

/-!
## Time Oracle (src/main.py lines 19-28, 186-262)
-/

/-- `START_DATE = datetime(2025, 11, 29)` - Saturday, November 29, 2025. -/
def START_DATE : PyDateTime := ⟨2025, 11, 29, 0, 0, 0, 0⟩

/-- `STUDY_HOUR = 19`. -/
def STUDY_HOUR : Nat := 19

/-- `STUDY_MINUTE = 30`. -/
def STUDY_MINUTE : Nat := 30

/-- `get_date_for_week`: `START_DATE + timedelta(weeks=week_index)`. -/
def get_date_for_week (week_index : Nat) : PyDateTime :=
  addDays START_DATE (7 * week_index)

/-- `format_date`: `date.strftime("%a %d/%m")` - the chain of
`.replace("Sat", "Sat")` etc. in the source maps each name to itself and is
the identity. -/
def format_date (t : PyDateTime) : String :=
  String.mk (dayName (weekday t.year t.month t.day) ++
    (' ' :: (pad2 t.day ++ ('/' :: pad2 t.month))))

/-- The `day, month = date_str.split()[-1].split('/')` / `int` stage of
`parse_date_string`; `none` models the `IndexError` (empty split) and
`ValueError` (unpack or int failure) paths caught by its `except`. -/
def parseDayMonth (s : String) : Option (Int × Int) :=
  match (splitWs s.data).getLast? with
  | none => none
  | some lastTok =>
    match splitSlash lastTok with
    | [dayL, monthL] =>
      match pyInt dayL, pyInt monthL with
      | some d, some m => some (d, m)
      | _, _ => none
    | _ => none

/-- `BRISBANE_TZ.localize(datetime(y, month, day, STUDY_HOUR, STUDY_MINUTE, 0))`:
`none` when the `datetime` constructor raises for out-of-range fields.
Brisbane has a fixed UTC offset, so localization keeps the wall-clock fields. -/
def mkStudyDT (y : Nat) (m d : Int) : Option PyDateTime :=
  if 1 ≤ y ∧ y ≤ 9999 ∧ 1 ≤ m ∧ m ≤ 12 ∧ 1 ≤ d ∧ d ≤ (daysInMonth y m.toNat : Int) then
    some ⟨y, m.toNat, d.toNat, STUDY_HOUR, STUDY_MINUTE, 0, 0⟩
  else none

/-- The datetime-construction tail of `parse_date_string`: build
`datetime(now.year, month, day, 19, 30)` and roll to `now.year + 1` when
the result is before `now`. -/
def resolveStudyDT (now : PyDateTime) (d m : Int) : Option PyDateTime :=
  match mkStudyDT now.year m d with
  | none => none
  | some target =>
    if toUsec target < toUsec now then mkStudyDT (now.year + 1) m d
    else some target

/-- `parse_date_string(date_str)`: parse "Sat 29/11" into the next matching
Brisbane datetime.  `now` stands for `datetime.now(BRISBANE_TZ)`.  Any
exception along the way yields `None`. -/
def parse_date_string (now : PyDateTime) (s : String) : Option PyDateTime :=
  match parseDayMonth s with
  | none => none
  | some dm => resolveStudyDT now dm.1 dm.2

/-- `has_past_study_time(now)`. -/
def has_past_study_time (now : PyDateTime) : Bool :=
  decide (STUDY_HOUR < now.hour ∨ (now.hour = STUDY_HOUR ∧ STUDY_MINUTE ≤ now.minute))

/-- The shared fallback of `get_next_study_time` and
`get_next_schedule_date`: next Saturday at the study time, rolling a full
week when today is Saturday and the slot has passed.  Python computes
`(5 - now.weekday()) % 7` with floor semantics, matched by `Int.emod`. -/
def fallbackSaturday (now : PyDateTime) : PyDateTime :=
  let w : Int := (5 - (weekday now.year now.month now.day : Int)) % 7
  let dus : Nat := if w = 0 ∧ has_past_study_time now then 7 else w.toNat
  let ns := addDays now dus
  { ns with hour := STUDY_HOUR, minute := STUDY_MINUTE, second := 0, usec := 0 }

/-!
## Rotation Store data model (src/main.py lines 275-307)

A schedule entry is either a legacy bare user id or a JSON object
`{"id": ..., "name": ..., "date": ...}`; the `date` key may be absent
(`Option String`), which the engine handles through `entry.get("date", ...)`.
-/

/-- One rotation entry: legacy bare id, or structured entry. -/
inductive Entry where
  | bare (id : Int)
  | dict (id : Int) (name : Option String) (date : Option String)
deriving DecidableEq, Repr

/-- The id of an entry (`entry["id"] if isinstance(entry, dict) else entry`). -/
def entryId : Entry → Int
  | Entry.bare i => i
  | Entry.dict i _ _ => i

/-- `get_user_ids(schedule_list)`. -/
def get_user_ids (schedule : List Entry) : List Int :=
  schedule.map entryId

/-- The date label `get_next_study_time` reads from the head entry:
requires `isinstance(first_entry, dict) and "date" in first_entry`. -/
def Entry.date? : Entry → Option String
  | Entry.bare _ => none
  | Entry.dict _ _ ds => ds

/-- `get_next_study_time()`: the head entry date when it parses to a strict
future instant, otherwise the next Saturday slot.  `now` stands for
`datetime.now(BRISBANE_TZ)` and `schedule` for `load_schedule()`. -/
def get_next_study_time (now : PyDateTime) (schedule : List Entry) : PyDateTime :=
  match schedule with
  | [] => fallbackSaturday now
  | first :: _ =>
    match first.date? with
    | none => fallbackSaturday now
    | some ds =>
      match parse_date_string now ds with
      | none => fallbackSaturday now
      | some scheduled =>
        if toUsec now < toUsec scheduled then scheduled else fallbackSaturday now

/-- `get_next_schedule_date(schedule)`: one week after the last entry's
parsed date, else the next available Saturday slot. -/
def get_next_schedule_date (now : PyDateTime) (schedule : List Entry) : PyDateTime :=
  match schedule.getLast? with
  | none => fallbackSaturday now
  | some lastE =>
    match (match lastE with
           | Entry.dict _ _ ds => parse_date_string now (ds.getD "")
           | Entry.bare _ => none) with
    | some lastDate => addDays lastDate 7
    | none => fallbackSaturday now

/-!
## Rotation Engine (src/main.py lines 315-361, 449-497, 557-569, 900-918)
-/

/-- The body of the `while schedule:` loop of `advance_schedule_if_needed`,
with explicit fuel standing for the loop iterations; the Python loop has no
static bound, and every theorem below holds for every fuel that lets the
loop reach its own `break`. -/
def advanceLoop : Nat → PyDateTime → List Entry → Bool → List Entry × Bool
  | 0, _, schedule, changed => (schedule, changed)
  | fuel + 1, now, schedule, changed =>
    match schedule with
    | [] => (schedule, changed)
    | first :: rest =>
      let first_date_str :=
        match first with
        | Entry.dict _ _ ds => ds.getD (format_date (get_date_for_week 0))
        | Entry.bare _ => format_date (get_date_for_week 0)
      match parse_date_string now first_date_str with
      | none => (schedule, changed)
      | some scheduled_date =>
        if toUsec scheduled_date ≤ toUsec now then
          let last_date :=
            match rest.getLast? with
            | some lastE =>
              let last_date_str :=
                match lastE with
                | Entry.dict _ _ ds => ds.getD first_date_str
                | Entry.bare _ => first_date_str
              (parse_date_string now last_date_str).getD scheduled_date
            | none => scheduled_date
          let next_slot_str := format_date (addDays last_date 7)
          let completed :=
            match first with
            | Entry.dict i n _ => Entry.dict i n (some next_slot_str)
            | Entry.bare i => Entry.dict i none (some next_slot_str)
          advanceLoop fuel now (rest ++ [completed]) true
        else (schedule, changed)

/-- `advance_schedule_if_needed()`: rotate the schedule while the head's
session instant has passed; returns the schedule that would be saved and
whether anything changed (`changed` triggers `save_schedule` and a
re-render in the source). -/
def advance_schedule_if_needed (fuel : Nat) (now : PyDateTime)
    (schedule : List Entry) : List Entry × Bool :=
  match schedule with
  | [] => ([], false)
  | _ => advanceLoop fuel now schedule false

/-- The errors `ScheduleView.pass_week` rejects with. -/
inductive PassError where
  | NotInRotation
  | NotHead
deriving DecidableEq, Repr

/-- One step of the positional relabeling loop of `pass_week`: only dict
entries receive `entry["date"] = format_date(get_date_for_week(i))`. -/
def relabelOne (i : Nat) : Entry → Entry
  | Entry.dict uid nm _ => Entry.dict uid nm (some (format_date (get_date_for_week i)))
  | Entry.bare uid => Entry.bare uid

/-- The `for i, entry in enumerate(schedule)` relabeling loop, starting at
index `i`. -/
def relabelFrom (i : Nat) : List Entry → List Entry
  | [] => []
  | e :: rest => relabelOne i e :: relabelFrom (i + 1) rest

/-- `ScheduleView.pass_week`: the head defers to the back and all dict
entries are relabeled positionally.  Returns the rejection (if any) and the
schedule as it is afterwards; on rejection the source sends an ephemeral
message and neither mutates nor saves the schedule. -/
def pass_week (schedule : List Entry) (user_id : Int) (display_name : String) :
    Option PassError × List Entry :=
  if user_id ∈ get_user_ids schedule then
    match schedule with
    | [] => (some PassError.NotInRotation, schedule)
    | first :: rest =>
      if entryId first = user_id then
        let skipped :=
          match first with
          | Entry.dict i _ ds => Entry.dict i (some display_name) ds
          | Entry.bare i => Entry.dict i (some display_name) none
        (none, relabelFrom 0 (rest ++ [skipped]))
      else (some PassError.NotHead, schedule)
  else (some PassError.NotInRotation, schedule)

/-- The error `api_add_user` rejects with. -/
inductive AddError where
  | AlreadyPresent
deriving DecidableEq, Repr

/-- `/api/add` (`api_add_user`): reject an id already present, otherwise
append with the next schedule date.  Returns the rejection (if any) and the
schedule as persisted (unchanged on rejection: the source returns before
`save_schedule`). -/
def api_add_user (now : PyDateTime) (schedule : List Entry)
    (user_id : Int) (user_name : String) : Option AddError × List Entry :=
  if user_id ∈ get_user_ids schedule then (some AddError.AlreadyPresent, schedule)
  else
    (none, schedule ++
      [Entry.dict user_id (some user_name)
        (some (format_date (get_next_schedule_date now schedule)))])

/-- The `/add` chat command (`add_user`): appends unconditionally - it has
no duplicate check. -/
def add_user (now : PyDateTime) (schedule : List Entry)
    (user_id : Int) (display_name : String) : List Entry :=
  schedule ++
    [Entry.dict user_id (some display_name)
      (some (format_date (get_next_schedule_date now schedule)))]

/-!
## Reminder Scheduler (src/main.py lines 591-663)

`last_reminder_date` and `last_6h_reminder_time` are in-memory globals,
passed here as explicit state.  Message transport is external and fallible:
each guild iteration carries a flag for whether the leader/channel is
resolvable there and whether the `await ... send` succeeds or raises.  The
evaluation returns the new guard state and how many messages were
delivered.
-/

/-- `next_study.date()`: the calendar date of a datetime. -/
def dateOf (t : PyDateTime) : Nat × Nat × Nat :=
  (t.year, t.month, t.day)

/-- The `for guild in bot.guilds:` loop of `send_24h_reminders`; each guild
contributes `(memberFound, sendOk)`.  The guard is only checked before the
loop, so it is threaded but not re-tested inside. -/
def send24hLoop (sessionDate : Nat × Nat × Nat) (schedule : List Entry) :
    List (Bool × Bool) → Option (Nat × Nat × Nat) → Nat →
    Option (Nat × Nat × Nat) × Nat
  | [], st, sent => (st, sent)
  | (memberFound, sendOk) :: guilds, st, sent =>
    if schedule ≠ [] ∧ memberFound then
      if sendOk then send24hLoop sessionDate schedule guilds (some sessionDate) (sent + 1)
      else send24hLoop sessionDate schedule guilds st sent
    else send24hLoop sessionDate schedule guilds st sent

/-- `send_24h_reminders()`: skip when the guard already names the next
session's date; inside the `(23h, 25h)` window, DM the head leader and set
the guard only on confirmed delivery.  The deployed bot is locked to a
single server, so `guilds` is a singleton in every claim below.  The float
`total_seconds()` comparison is exact at these magnitudes and is modeled on
integer microseconds. -/
def send_24h_reminders (st : Option (Nat × Nat × Nat)) (now : PyDateTime)
    (schedule : List Entry) (guilds : List (Bool × Bool)) :
    Option (Nat × Nat × Nat) × Nat :=
  let next_study := get_next_study_time now schedule
  if st = some (dateOf next_study) then (st, 0)
  else
    let time_until : Int := (toUsec next_study : Int) - (toUsec now : Int)
    if 23 * 3600 * 1000000 < time_until ∧ time_until < 25 * 3600 * 1000000 then
      send24hLoop (dateOf next_study) schedule guilds st 0
    else (st, 0)

/-- `send_6h_reminders()`: return early when a send happened less than an
hour ago, else inside the `(5.5h, 6.5h)` window ping the channel of the one
allowed guild; `last_6h_reminder_time = now` is executed only after the
`await channel.send` succeeds, so a raising send leaves the guard as it
was.  `allowedJoined` is whether `bot.guilds` contains the allowed guild,
`channelFound` whether `guild.get_channel(REMINDER_CHANNEL_ID)` resolves. -/
def send_6h_reminders (st : Option PyDateTime) (now : PyDateTime)
    (schedule : List Entry) (allowedJoined channelFound sendOk : Bool) :
    Option PyDateTime × Nat :=
  let blocked : Bool := match st with
    | some lastT => decide ((toUsec now : Int) - (toUsec lastT : Int) < 3600 * 1000000)
    | none => false
  if blocked then (st, 0)
  else
    let next_study := get_next_study_time now schedule
    let time_until : Int := (toUsec next_study : Int) - (toUsec now : Int)
    if 19800 * 1000000 < time_until ∧ time_until < 23400 * 1000000 then
      if allowedJoined ∧ schedule ≠ [] ∧ channelFound then
        if sendOk then (some now, 1) else (st, 0)
      else (st, 0)
    else (st, 0)

/-!
## Bounded audit logs (src/main.py lines 30-80)
-/

/-- A `dm_log.json` record as `log_dm` builds it. -/
structure DMLogEntry where
  timestamp : PyDateTime
  user_id : Int
  user_name : String
  type : String
  status : String
deriving DecidableEq, Repr

/-- A `chat_history.json` record as `save_chat_message` builds it. -/
structure ChatMessage where
  from_user : String
  text : String
  timestamp : PyDateTime
deriving DecidableEq, Repr

/-- `log_dm`: append the record, then `logs = logs[-100:]` when the length
exceeds 100 - Python's `[-100:]` keeps the last 100 elements. -/
def log_dm (logs : List DMLogEntry) (e : DMLogEntry) : List DMLogEntry :=
  let logs1 := logs ++ [e]
  if 100 < logs1.length then logs1.drop (logs1.length - 100) else logs1

/-- `save_chat_message`: same append-and-truncate on the chat history. -/
def save_chat_message (messages : List ChatMessage) (from_user text : String)
    (now : PyDateTime) : List ChatMessage :=
  let messages1 := messages ++ [⟨from_user, text, now⟩]
  if 100 < messages1.length then messages1.drop (messages1.length - 100) else messages1


/-!
## Calendar lemmas

The key fact behind `parse_date_string` never producing a past instant:
every valid datetime of year `y + 1` is later than every valid datetime of
year `y`, through the `dayNumber` linearization.
-/

theorem isLeap_iff (y : Nat) : isLeap y = true ↔ ((4 ∣ y ∧ ¬ (100 ∣ y)) ∨ 400 ∣ y) := by
  simp [isLeap]

theorem leapCount_succ (n : Nat) :
    leapCount (n + 1) = leapCount n + (if isLeap (n + 1) then 1 else 0) := by
  have h4 := Nat.succ_div n 4
  have h100 := Nat.succ_div n 100
  have h400 := Nat.succ_div n 400
  have d1 : (100 : Nat) ∣ (n + 1) → (4 : Nat) ∣ (n + 1) := fun h => dvd_trans ⟨25, rfl⟩ h
  have d2 : (400 : Nat) ∣ (n + 1) → (100 : Nat) ∣ (n + 1) := fun h => dvd_trans ⟨4, rfl⟩ h
  have hle : n / 100 ≤ n / 4 := Nat.div_le_div_left (by norm_num) (by norm_num)
  have hle2 : (n + 1) / 100 ≤ (n + 1) / 4 := Nat.div_le_div_left (by norm_num) (by norm_num)
  unfold leapCount
  by_cases h4d : (4 : Nat) ∣ (n + 1)
  · rw [if_pos h4d] at h4
    by_cases h100d : (100 : Nat) ∣ (n + 1)
    · rw [if_pos h100d] at h100
      by_cases h400d : (400 : Nat) ∣ (n + 1)
      · rw [if_pos h400d] at h400
        have hl : isLeap (n + 1) = true := (isLeap_iff _).mpr (Or.inr h400d)
        rw [if_pos hl]
        omega
      · rw [if_neg h400d] at h400
        have hl : ¬ isLeap (n + 1) = true := by
          intro hc
          rcases (isLeap_iff _).mp hc with ⟨-, hb⟩ | hc400
          · exact hb h100d
          · exact h400d hc400
        rw [if_neg hl]
        omega
    · rw [if_neg h100d] at h100
      have h400d : ¬ (400 : Nat) ∣ (n + 1) := fun hc => h100d (d2 hc)
      rw [if_neg h400d] at h400
      have hl : isLeap (n + 1) = true := (isLeap_iff _).mpr (Or.inl ⟨h4d, h100d⟩)
      rw [if_pos hl]
      omega
  · rw [if_neg h4d] at h4
    have h100d : ¬ (100 : Nat) ∣ (n + 1) := fun hc => h4d (d1 hc)
    have h400d : ¬ (400 : Nat) ∣ (n + 1) := fun hc => h100d (d2 hc)
    rw [if_neg h100d] at h100
    rw [if_neg h400d] at h400
    have hl : ¬ isLeap (n + 1) = true := by
      intro hc
      rcases (isLeap_iff _).mp hc with ⟨ha, -⟩ | hc400
      · exact h4d ha
      · exact h400d hc400
    rw [if_neg hl]
    omega

theorem daysInMonth_feb (y : Nat) : daysInMonth y 2 = if isLeap y then 29 else 28 := rfl

theorem monthsDays_twelve (y : Nat) : monthsDays y 12 = daysInYear y := by
  have e : monthsDays y 12 = 337 + daysInMonth y 2 := by
    show 0 + 31 + daysInMonth y 2 + 31 + 30 + 31 + 30 + 31 + 31 + 30 + 31 + 30 + 31
        = 337 + daysInMonth y 2
    omega
  rw [e, daysInMonth_feb]
  unfold daysInYear
  cases isLeap y <;> norm_num

theorem yearBase_succ (y : Nat) :
    365 * (y + 1) + leapCount (y + 1) = (365 * y + leapCount y) + daysInYear (y + 1) := by
  have h := leapCount_succ y
  unfold daysInYear
  cases hl : isLeap (y + 1) <;> rw [hl] at h <;> simp only [if_true, if_false,
    Bool.false_eq_true, Bool.true_eq_false] at h ⊢ <;> omega

theorem yearBase_mono {y z : Nat} (h : y ≤ z) :
    365 * y + leapCount y ≤ 365 * z + leapCount z := by
  induction z with
  | zero =>
    have hy : y = 0 := Nat.le_zero.mp h
    subst hy; exact le_refl _
  | succ k ih =>
    rcases Nat.eq_or_lt_of_le h with rfl | hlt
    · exact le_refl _
    · calc 365 * y + leapCount y ≤ 365 * k + leapCount k := ih (Nat.lt_succ_iff.mp hlt)
        _ ≤ 365 * (k + 1) + leapCount (k + 1) := by rw [yearBase_succ]; omega

theorem monthsDays_succ (y k : Nat) :
    monthsDays y (k + 1) = monthsDays y k + daysInMonth y (k + 1) := rfl

theorem monthsDays_le_of_le (y : Nat) {a b : Nat} (h : a ≤ b) :
    monthsDays y a ≤ monthsDays y b := by
  induction b with
  | zero =>
    have ha : a = 0 := Nat.le_zero.mp h
    subst ha; exact le_refl _
  | succ k ih =>
    rcases Nat.eq_or_lt_of_le h with rfl | hlt
    · exact le_refl _
    · calc monthsDays y a ≤ monthsDays y k := ih (Nat.lt_succ_iff.mp hlt)
        _ ≤ monthsDays y (k + 1) := by rw [monthsDays_succ]; omega

theorem dayOfYear_le_daysInYear {y m d : Nat} (hm1 : 1 ≤ m) (hm : m ≤ 12)
    (hd : d ≤ daysInMonth y m) : dayOfYear y m d ≤ daysInYear y := by
  have hstep : monthsDays y m = monthsDays y (m - 1) + daysInMonth y m := by
    obtain ⟨k, rfl⟩ : ∃ k, m = k + 1 := ⟨m - 1, by omega⟩
    simp [monthsDays_succ]
  calc dayOfYear y m d = monthsDays y (m - 1) + d := rfl
    _ ≤ monthsDays y (m - 1) + daysInMonth y m := by omega
    _ = monthsDays y m := hstep.symm
    _ ≤ monthsDays y 12 := monthsDays_le_of_le y hm
    _ = daysInYear y := monthsDays_twelve y

theorem dayNumber_lt_of_year_lt {y m d y' m' d' : Nat}
    (hy1 : 1 ≤ y) (hm1 : 1 ≤ m) (hm : m ≤ 12) (hd : d ≤ daysInMonth y m)
    (hd1 : 1 ≤ d') (hyy : y < y') :
    dayNumber y m d < dayNumber y' m' d' := by
  have h1 : dayOfYear y m d ≤ daysInYear y := dayOfYear_le_daysInYear hm1 hm hd
  have h2 : 365 * (y - 1) + leapCount (y - 1) + daysInYear y
      = 365 * y + leapCount y := by
    have h := yearBase_succ (y - 1)
    have hy : y - 1 + 1 = y := by omega
    rw [hy] at h
    omega
  have h3 : 365 * y + leapCount y ≤ 365 * (y' - 1) + leapCount (y' - 1) :=
    yearBase_mono (by omega)
  have h4 : 1 ≤ dayOfYear y' m' d' := by
    unfold dayOfYear; omega
  unfold dayNumber
  omega

theorem toUsec_expand (t : PyDateTime) :
    toUsec t = dayNumber t.year t.month t.day * 86400000000 + t.hour * 3600000000
      + t.minute * 60000000 + t.second * 1000000 + t.usec := by
  unfold toUsec; ring

theorem toUsec_lt_of_year_lt {a b : PyDateTime} (ha : ValidDT a) (hb : ValidDT b)
    (h : a.year < b.year) : toUsec a < toUsec b := by
  obtain ⟨ha1, -, ha3, ha4, -, ha6, ha7, ha8, ha9, ha10⟩ := ha
  obtain ⟨hb1, -, -, -, hb5, -, -, -, -, -⟩ := hb
  have hdn : dayNumber a.year a.month a.day + 1 ≤ dayNumber b.year b.month b.day :=
    dayNumber_lt_of_year_lt ha1 ha3 ha4 ha6 hb5 h
  rw [toUsec_expand a, toUsec_expand b]
  nlinarith [hdn, ha7, ha8, ha9, ha10]

theorem mkStudyDT_eq {y : Nat} {m d : Int} {t : PyDateTime}
    (h : mkStudyDT y m d = some t) :
    ValidDT t ∧ t.year = y := by
  unfold mkStudyDT at h
  split_ifs at h with hc
  obtain ⟨h1, h2, h3, h4, h5, h6⟩ := hc
  obtain rfl : (⟨y, m.toNat, d.toNat, STUDY_HOUR, STUDY_MINUTE, 0, 0⟩ : PyDateTime) = t :=
    Option.some_injective _ h
  refine ⟨?_, rfl⟩
  unfold ValidDT
  dsimp only
  refine ⟨h1, h2, by omega, by omega, by omega, by omega, ?_, ?_, by norm_num, by norm_num⟩
  · show STUDY_HOUR ≤ 23
    norm_num [STUDY_HOUR]
  · show STUDY_MINUTE ≤ 59
    norm_num [STUDY_MINUTE]

theorem parse_eq_none_of_pdm {now : PyDateTime} {s : String}
    (h : parseDayMonth s = none) : parse_date_string now s = none := by
  unfold parse_date_string
  rw [h]

theorem parse_eq_resolve_of_pdm {now : PyDateTime} {s : String} {dm : Int × Int}
    (h : parseDayMonth s = some dm) :
    parse_date_string now s = resolveStudyDT now dm.1 dm.2 := by
  unfold parse_date_string
  rw [h]

theorem resolve_eq_none_of_mk {now : PyDateTime} {d m : Int}
    (h : mkStudyDT now.year m d = none) : resolveStudyDT now d m = none := by
  unfold resolveStudyDT
  rw [h]

theorem resolve_eq_ite_of_mk {now : PyDateTime} {d m : Int} {t : PyDateTime}
    (h : mkStudyDT now.year m d = some t) :
    resolveStudyDT now d m =
      if toUsec t < toUsec now then mkStudyDT (now.year + 1) m d else some t := by
  unfold resolveStudyDT
  rw [h]

/-- C2: for every input string and every valid current instant,
`parse_date_string` returns `None` or a localized datetime that is not
earlier than the current time - a date already past this year resolves
into next year, so the parser never yields an instant in the past. -/
theorem C2_parse_never_past (now : PyDateTime) (s : String) (hv : ValidDT now) :
    parse_date_string now s = none ∨
      ∃ t, parse_date_string now s = some t ∧ toUsec now ≤ toUsec t := by
  cases hpm : parseDayMonth s with
  | none => exact Or.inl (parse_eq_none_of_pdm hpm)
  | some dm =>
    rw [parse_eq_resolve_of_pdm hpm]
    cases h1 : mkStudyDT now.year dm.2 dm.1 with
    | none => exact Or.inl (resolve_eq_none_of_mk h1)
    | some t1 =>
      rw [resolve_eq_ite_of_mk h1]
      by_cases hlt : toUsec t1 < toUsec now
      · rw [if_pos hlt]
        cases h2 : mkStudyDT (now.year + 1) dm.2 dm.1 with
        | none => exact Or.inl rfl
        | some t2 =>
          have h2f := mkStudyDT_eq h2
          refine Or.inr ⟨t2, rfl, le_of_lt (toUsec_lt_of_year_lt hv h2f.1 ?_)⟩
          rw [h2f.2]
          omega
      · rw [if_neg hlt]
        exact Or.inr ⟨t1, rfl, by omega⟩

/-- Witness for C2 at a concrete instant and date string. -/
theorem C2_parse_never_past_witness :
    parse_date_string ⟨2025, 11, 20, 12, 0, 0, 0⟩ "Sat 29/11" = none ∨
      ∃ t, parse_date_string ⟨2025, 11, 20, 12, 0, 0, 0⟩ "Sat 29/11" = some t ∧
        toUsec ⟨2025, 11, 20, 12, 0, 0, 0⟩ ≤ toUsec t :=
  C2_parse_never_past ⟨2025, 11, 20, 12, 0, 0, 0⟩ "Sat 29/11" (by decide)

/-!
## C1: automatic advancement
-/

/-- C1: at the claim's own scenario - rotation `[{A, anchor}, {B, anchor+7d}]`
evaluated 30 minutes after the anchor session time (anchor = Sat 29/11/2025,
session 19:30, `now` = 20:00) - the code does NOT rotate: `parse_date_string`
rolls the already-elapsed head date to next year, so the loop condition
`now >= scheduled_date` fails and `advance_schedule_if_needed` returns the
rotation unchanged reporting no change, whatever the loop fuel.  This
contradicts the function's own docstring ("Rotate the schedule once the
current session time has passed") and the claimed result
`[{B, anchor+7d}, {A, anchor+14d}]`. -/
theorem C1_advance_noop_after_session (fuel : Nat) :
    advance_schedule_if_needed (fuel + 1) ⟨2025, 11, 29, 20, 0, 0, 0⟩
      [Entry.dict 1 (some "A") (some "Sat 29/11"),
       Entry.dict 2 (some "B") (some "Sat 06/12")] =
      ([Entry.dict 1 (some "A") (some "Sat 29/11"),
        Entry.dict 2 (some "B") (some "Sat 06/12")], false) := rfl

/-!
## C9: next session instant
-/

/-- C9: `get_next_study_time` prefers the head entry's parsed date whenever
the parse succeeds and is strictly in the future; in every other case
(no head, head without a date label, unparseable label, or a parse not in
the strict future) it falls back to the next Saturday at the session time,
rolling a week forward when the Saturday slot has passed - in particular,
with an empty rotation on Saturday 21:15 it returns the following Saturday
19:30, not today. -/
theorem C9_get_next_study_time_spec (now : PyDateTime) (sched : List Entry) :
    (∀ first rest ds t, sched = first :: rest → first.date? = some ds →
       parse_date_string now ds = some t → toUsec now < toUsec t →
       get_next_study_time now sched = t) ∧
    (∀ first rest ds t, sched = first :: rest → first.date? = some ds →
       parse_date_string now ds = some t → ¬ toUsec now < toUsec t →
       get_next_study_time now sched = fallbackSaturday now) ∧
    (∀ first rest ds, sched = first :: rest → first.date? = some ds →
       parse_date_string now ds = none →
       get_next_study_time now sched = fallbackSaturday now) ∧
    (∀ first rest, sched = first :: rest → first.date? = none →
       get_next_study_time now sched = fallbackSaturday now) ∧
    (sched = [] → get_next_study_time now sched = fallbackSaturday now) ∧
    get_next_study_time ⟨2025, 11, 29, 21, 15, 0, 0⟩ [] = ⟨2025, 12, 6, 19, 30, 0, 0⟩ := by
  refine ⟨?_, ?_, ?_, ?_, ?_, ?_⟩
  · rintro first rest ds t rfl hds hp hlt
    unfold get_next_study_time
    simp only [hds, hp, if_pos hlt]
  · rintro first rest ds t rfl hds hp hlt
    unfold get_next_study_time
    simp only [hds, hp, if_neg hlt]
  · rintro first rest ds rfl hds hp
    unfold get_next_study_time
    simp only [hds, hp]
  · rintro first rest rfl hds
    unfold get_next_study_time
    simp only [hds]
  · rintro rfl
    rfl
  · rfl

/-- Witness for C9: the head's future date is preferred at a concrete input. -/
theorem C9_get_next_study_time_spec_witness :
    get_next_study_time ⟨2025, 11, 20, 12, 0, 0, 0⟩
      [Entry.dict 1 (some "A") (some "Sat 29/11")] = ⟨2025, 11, 29, 19, 30, 0, 0⟩ :=
  (C9_get_next_study_time_spec ⟨2025, 11, 20, 12, 0, 0, 0⟩
      [Entry.dict 1 (some "A") (some "Sat 29/11")]).1
    (Entry.dict 1 (some "A") (some "Sat 29/11")) [] "Sat 29/11"
    ⟨2025, 11, 29, 19, 30, 0, 0⟩ rfl rfl rfl (by decide)

/-!
## C4: pass rejections
-/

/-- C4: `pass_week` rejects an actor absent from the rotation with
`NotInRotation` and an actor who is present but not the head with
`NotHead`; in both cases the returned rotation is the input unchanged
(the source sends an ephemeral rejection and never calls `save_schedule`). -/
theorem C4_pass_week_rejections (sched : List Entry) (actor : Int) (dn : String) :
    (actor ∉ get_user_ids sched →
       pass_week sched actor dn = (some PassError.NotInRotation, sched)) ∧
    (∀ first rest, sched = first :: rest → actor ∈ get_user_ids sched →
       entryId first ≠ actor →
       pass_week sched actor dn = (some PassError.NotHead, sched)) := by
  constructor
  · intro h
    unfold pass_week
    rw [if_neg h]
  · rintro first rest rfl hmem hne
    unfold pass_week
    rw [if_pos hmem]
    simp only [if_neg hne]

/-- Witness for C4: both rejection branches at concrete inputs. -/
theorem C4_pass_week_rejections_witness :
    pass_week [Entry.dict 1 (some "A") (some "Sat 29/11"),
        Entry.dict 2 (some "B") (some "Sat 06/12")] 3 "C" =
      (some PassError.NotInRotation,
        [Entry.dict 1 (some "A") (some "Sat 29/11"),
         Entry.dict 2 (some "B") (some "Sat 06/12")]) ∧
    pass_week [Entry.dict 1 (some "A") (some "Sat 29/11"),
        Entry.dict 2 (some "B") (some "Sat 06/12")] 2 "B" =
      (some PassError.NotHead,
        [Entry.dict 1 (some "A") (some "Sat 29/11"),
         Entry.dict 2 (some "B") (some "Sat 06/12")]) :=
  ⟨(C4_pass_week_rejections _ 3 "C").1 (by decide),
   (C4_pass_week_rejections _ 2 "B").2
     (Entry.dict 1 (some "A") (some "Sat 29/11"))
     [Entry.dict 2 (some "B") (some "Sat 06/12")] rfl (by decide) (by decide)⟩

/-!
## C5: full resynchronization after pass
-/

theorem relabelFrom_cons (k : Nat) (e : Entry) (rest : List Entry) :
    relabelFrom k (e :: rest) = relabelOne k e :: relabelFrom (k + 1) rest := rfl

theorem relabelFrom_getElem? (k : Nat) (l : List Entry) (i : Nat) :
    (relabelFrom k l)[i]? = (l[i]?).map (relabelOne (k + i)) := by
  induction l generalizing k i with
  | nil => simp [relabelFrom]
  | cons a l ih =>
    cases i with
    | zero => simp [relabelFrom_cons]
    | succ j =>
      rw [relabelFrom_cons, List.getElem?_cons_succ, List.getElem?_cons_succ, ih]
      have he : k + 1 + j = k + (j + 1) := by omega
      rw [he]

theorem relabelFrom_append_singleton (l : List Entry) (k : Nat) (e : Entry) :
    relabelFrom k (l ++ [e]) = relabelFrom k l ++ [relabelOne (k + l.length) e] := by
  induction l generalizing k with
  | nil => simp [relabelFrom, relabelFrom_cons]
  | cons a l ih =>
    rw [List.cons_append, relabelFrom_cons, relabelFrom_cons, ih, List.length_cons]
    have he : k + 1 + l.length = k + (l.length + 1) := by omega
    rw [he, List.cons_append]

/-- C5 (amended): after a successful pass by the head, every structured
(dict) entry of the resulting rotation carries the date
`format_date (get_date_for_week i)` for its new index `i`, and the passed
entry sits at the tail as a dict entry with the actor's current display
name and the positional tail date.  Legacy bare-id entries are left as
they are by the relabeling loop (they have no `date` key at all), which is
what the counterexample exhibits against the claim's "every entry". -/
theorem C5_pass_resync (first : Entry) (rest : List Entry) (actor : Int)
    (dn : String) (hid : entryId first = actor) :
    (pass_week (first :: rest) actor dn).1 = none ∧
    (∀ i id nm ds, ((pass_week (first :: rest) actor dn).2)[i]? =
        some (Entry.dict id nm ds) →
      ds = some (format_date (get_date_for_week i))) ∧
    (pass_week (first :: rest) actor dn).2.getLast? =
      some (Entry.dict actor (some dn)
        (some (format_date (get_date_for_week rest.length)))) := by
  have hmem : actor ∈ get_user_ids (first :: rest) := by
    unfold get_user_ids
    rw [List.map_cons, hid]
    exact List.mem_cons_self _ _
  obtain ⟨ds0, hr⟩ :
      ∃ ds0, pass_week (first :: rest) actor dn =
        (none, relabelFrom 0 (rest ++ [Entry.dict actor (some dn) ds0])) := by
    cases first with
    | dict i n ds =>
      have hi : i = actor := by simpa [entryId] using hid
      subst hi
      refine ⟨ds, ?_⟩
      unfold pass_week
      rw [if_pos hmem]
      simp [entryId]
    | bare i =>
      have hi : i = actor := by simpa [entryId] using hid
      subst hi
      refine ⟨none, ?_⟩
      unfold pass_week
      rw [if_pos hmem]
      simp [entryId]
  have hr1 : (pass_week (first :: rest) actor dn).1 = none := by rw [hr]
  have hr2 : (pass_week (first :: rest) actor dn).2 =
      relabelFrom 0 (rest ++ [Entry.dict actor (some dn) ds0]) := by rw [hr]
  refine ⟨hr1, ?_, ?_⟩
  · intro i id nm ds h
    rw [hr2, relabelFrom_getElem?] at h
    rcases hL : (rest ++ [Entry.dict actor (some dn) ds0])[i]? with - | e
    · rw [hL] at h; simp at h
    · rw [hL] at h
      cases e with
      | dict a b c =>
        simp [relabelOne, Entry.dict.injEq] at h
        exact h.2.2.symm
      | bare a =>
        simp [relabelOne] at h
  · rw [hr2, relabelFrom_append_singleton, List.getLast?_concat]
    simp [relabelOne]

/-- Counterexample for C5 as stated: a successful pass over a rotation
containing a legacy bare entry leaves that entry without any date, so not
every entry ends up labeled `format_date (get_date_for_week i)`. -/
theorem C5_counterexample :
    (pass_week [Entry.dict 1 (some "A") (some "Sat 29/11"), Entry.bare 2] 1 "A").1
        = none ∧
    ((pass_week [Entry.dict 1 (some "A") (some "Sat 29/11"), Entry.bare 2] 1 "A").2)[0]?
        = some (Entry.bare 2) ∧
    (Entry.bare 2).date? = none :=
  ⟨rfl, rfl, rfl⟩

/-- Witness for C5 at a concrete successful pass. -/
theorem C5_pass_resync_witness :
    (pass_week [Entry.dict 1 (some "A") (some "Sat 29/11"),
        Entry.dict 2 (some "B") (some "Sat 06/12")] 1 "A").2.getLast? =
      some (Entry.dict 1 (some "A") (some (format_date (get_date_for_week 1)))) :=
  (C5_pass_resync (Entry.dict 1 (some "A") (some "Sat 29/11"))
    [Entry.dict 2 (some "B") (some "Sat 06/12")] 1 "A" rfl).2.2

/-!
## C3: add operation
-/

/-- C3 (amended): the web-dashboard add (`api_add_user`) fails with
`AlreadyPresent` exactly when the id is already in the rotation, leaves the
rotation unchanged on failure, and otherwise appends exactly one entry
dated with `get_next_schedule_date` - which is 7 days after the previous
tail's parsed date when that parse succeeds, and the next eligible Saturday
slot when the rotation is empty.  The `/add` chat command performs the same
append but has no duplicate check at all (see the counterexample). -/
theorem C3_api_add_spec (now : PyDateTime) (sched : List Entry)
    (uid : Int) (uname : String) :
    ((api_add_user now sched uid uname).1 = some AddError.AlreadyPresent ↔
       uid ∈ get_user_ids sched) ∧
    (uid ∈ get_user_ids sched → (api_add_user now sched uid uname).2 = sched) ∧
    (uid ∉ get_user_ids sched →
       (api_add_user now sched uid uname).2 =
         sched ++ [Entry.dict uid (some uname)
           (some (format_date (get_next_schedule_date now sched)))] ∧
       (api_add_user now sched uid uname).2.length = sched.length + 1) ∧
    (∀ i nm ds d, sched.getLast? = some (Entry.dict i nm ds) →
       parse_date_string now (ds.getD "") = some d →
       get_next_schedule_date now sched = addDays d 7) ∧
    (sched = [] → get_next_schedule_date now sched = fallbackSaturday now) := by
  refine ⟨?_, ?_, ?_, ?_, ?_⟩
  · by_cases hmem : uid ∈ get_user_ids sched
    · unfold api_add_user
      rw [if_pos hmem]
      simp [hmem]
    · unfold api_add_user
      rw [if_neg hmem]
      simp [hmem]
  · intro hmem
    unfold api_add_user
    rw [if_pos hmem]
  · intro hmem
    unfold api_add_user
    rw [if_neg hmem]
    exact ⟨rfl, by simp⟩
  · intro i nm ds d hlast hp
    unfold get_next_schedule_date
    simp only [hlast, hp]
  · rintro rfl
    rfl

/-- Counterexample for C3 as stated: the `/add` chat command, invoked with
an id that is already in the rotation, does not fail - it appends a second
entry with the same id. -/
theorem C3_counterexample :
    add_user ⟨2025, 11, 20, 12, 0, 0, 0⟩
        [Entry.dict 1 (some "A") (some "Sat 29/11")] 1 "A" =
      [Entry.dict 1 (some "A") (some "Sat 29/11"),
       Entry.dict 1 (some "A") (some "Sat 06/12")] := rfl

/-- Witness for C3: a fresh id is appended and the length grows by one. -/
theorem C3_api_add_spec_witness :
    (api_add_user ⟨2025, 11, 20, 12, 0, 0, 0⟩
        [Entry.dict 1 (some "A") (some "Sat 29/11")] 2 "B").2.length =
      [Entry.dict 1 (some "A") (some "Sat 29/11")].length + 1 :=
  ((C3_api_add_spec ⟨2025, 11, 20, 12, 0, 0, 0⟩
      [Entry.dict 1 (some "A") (some "Sat 29/11")] 2 "B").2.2.1 (by decide)).2

/-!
## C6: long-lead (24h) reminder idempotency
-/

theorem send24h_cases (st : Option (Nat × Nat × Nat)) (now : PyDateTime)
    (sched : List Entry) (mf ok : Bool) :
    send_24h_reminders st now sched [(mf, ok)] = (st, 0) ∨
    (st ≠ some (dateOf (get_next_study_time now sched)) ∧ ok = true ∧
      send_24h_reminders st now sched [(mf, ok)] =
        (some (dateOf (get_next_study_time now sched)), 1)) := by
  simp only [send_24h_reminders, send24hLoop]
  split_ifs with h1 h2 h3 h4
  · exact Or.inl rfl
  · exact Or.inr ⟨h1, h4, rfl⟩
  · exact Or.inl rfl
  · exact Or.inl rfl
  · exact Or.inl rfl

/-- C6: with the bot in its single allowed guild, evaluating the 24h
reminder twice for the same upcoming session date delivers at most one DM;
the guard is set to the session's date only on confirmed delivery; a
delivery failure leaves the guard unchanged (so a later tick inside the
window retries); and an evaluation whose guard already equals the next
session's date sends nothing. -/
theorem C6_24h_reminder_idempotent (st : Option (Nat × Nat × Nat))
    (n1 n2 : PyDateTime) (sched : List Entry) (mf1 ok1 mf2 ok2 : Bool)
    (hsame : dateOf (get_next_study_time n1 sched) =
      dateOf (get_next_study_time n2 sched)) :
    (send_24h_reminders st n1 sched [(mf1, ok1)]).2 +
      (send_24h_reminders (send_24h_reminders st n1 sched [(mf1, ok1)]).1
        n2 sched [(mf2, ok2)]).2 ≤ 1 ∧
    (ok1 = false → (send_24h_reminders st n1 sched [(mf1, ok1)]).1 = st) ∧
    ((send_24h_reminders st n1 sched [(mf1, ok1)]).2 = 1 →
      (send_24h_reminders st n1 sched [(mf1, ok1)]).1 =
        some (dateOf (get_next_study_time n1 sched))) ∧
    (st = some (dateOf (get_next_study_time n1 sched)) →
      send_24h_reminders st n1 sched [(mf1, ok1)] = (st, 0)) := by
  rcases send24h_cases st n1 sched mf1 ok1 with h1 | ⟨hne, hok, h1⟩
  · refine ⟨?_, fun _ => by rw [h1], fun h2 => ?_, fun _ => h1⟩
    · rw [h1]
      rcases send24h_cases st n2 sched mf2 ok2 with h2 | ⟨-, -, h2⟩ <;>
        simp [h2]
    · rw [h1] at h2
      cases h2
  · refine ⟨?_, fun hf => ?_, fun _ => by rw [h1], fun hg => absurd hg hne⟩
    · rw [h1]
      have hguard : some (dateOf (get_next_study_time n1 sched)) =
          some (dateOf (get_next_study_time n2 sched)) := by rw [hsame]
      rcases send24h_cases (some (dateOf (get_next_study_time n1 sched)))
          n2 sched mf2 ok2 with h2 | ⟨hne2, -, -⟩
      · simp [h2]
      · exact absurd hguard hne2
    · rw [hok] at hf
      cases hf

/-- Witness for C6 at concrete instants inside the `(23h, 25h)` window. -/
theorem C6_24h_reminder_idempotent_witness :
    (send_24h_reminders none ⟨2025, 11, 28, 19, 0, 0, 0⟩
        [Entry.dict 1 (some "A") (some "Sat 29/11")] [(true, true)]).2 +
      (send_24h_reminders
        (send_24h_reminders none ⟨2025, 11, 28, 19, 0, 0, 0⟩
          [Entry.dict 1 (some "A") (some "Sat 29/11")] [(true, true)]).1
        ⟨2025, 11, 28, 20, 0, 0, 0⟩
        [Entry.dict 1 (some "A") (some "Sat 29/11")] [(true, true)]).2 ≤ 1 :=
  (C6_24h_reminder_idempotent none ⟨2025, 11, 28, 19, 0, 0, 0⟩
    ⟨2025, 11, 28, 20, 0, 0, 0⟩ [Entry.dict 1 (some "A") (some "Sat 29/11")]
    true true true true rfl).1

/-!
## C7: short-lead (6h) reminder guard
-/

theorem send6h_cases (st : Option PyDateTime) (now : PyDateTime)
    (sched : List Entry) (aj cf ok : Bool) :
    send_6h_reminders st now sched aj cf ok = (st, 0) ∨
    (ok = true ∧ send_6h_reminders st now sched aj cf ok = (some now, 1)) := by
  unfold send_6h_reminders
  cases st <;> simp only [] <;> split_ifs <;>
    first
      | exact Or.inl rfl
      | (rename_i hok; exact Or.inr ⟨hok, rfl⟩)

/-- C7 (amended): on a short-lead evaluation the guard
`last_6h_reminder_time` is updated to the current time only when the
channel send succeeds - the assignment follows the `await channel.send`
inside the `try`, so a raising send leaves the guard unchanged (and the
next tick may retry immediately); when the window, the one-hour spacing,
the schedule, the guild and the channel conditions all hold and the send
succeeds, the notice is sent and the guard becomes `now`. -/
theorem C7_6h_guard_on_success_only (st : Option PyDateTime) (now : PyDateTime)
    (sched : List Entry) (aj cf ok : Bool) :
    (ok = false → send_6h_reminders st now sched aj cf ok = (st, 0)) ∧
    ((send_6h_reminders st now sched aj cf ok).2 = 1 →
      (send_6h_reminders st now sched aj cf ok).1 = some now) ∧
    (∀ lastT, st = some lastT →
      (toUsec now : Int) - (toUsec lastT : Int) < 3600 * 1000000 →
      send_6h_reminders st now sched aj cf ok = (st, 0)) ∧
    ((∀ lastT, st = some lastT →
        3600 * 1000000 ≤ (toUsec now : Int) - (toUsec lastT : Int)) →
      19800 * 1000000 <
        (toUsec (get_next_study_time now sched) : Int) - (toUsec now : Int) →
      (toUsec (get_next_study_time now sched) : Int) - (toUsec now : Int) <
        23400 * 1000000 →
      sched ≠ [] → aj = true → cf = true → ok = true →
      send_6h_reminders st now sched aj cf ok = (some now, 1)) := by
  refine ⟨fun hf => ?_, fun h1 => ?_, fun lastT hst hlt => ?_, fun hgap hw1 hw2 hs haj hcf hok => ?_⟩
  · rcases send6h_cases st now sched aj cf ok with h | ⟨hok, -⟩
    · exact h
    · rw [hf] at hok; cases hok
  · rcases send6h_cases st now sched aj cf ok with h | ⟨-, h⟩
    · rw [h] at h1; cases h1
    · rw [h]
  · subst hst
    unfold send_6h_reminders
    rw [if_pos]
    show decide _ = true
    exact decide_eq_true hlt
  · subst haj hcf hok
    unfold send_6h_reminders
    rw [if_neg, if_pos ⟨hw1, hw2⟩, if_pos ⟨rfl, hs, rfl⟩, if_pos rfl]
    cases st with
    | none => simp
    | some lastT =>
      have := hgap lastT rfl
      simp only [decide_eq_true_eq]
      omega

/-- Counterexample for C7 as stated: a concrete evaluation strictly inside
the `(5.5h, 6.5h)` window with a fresh guard and a resolvable channel whose
send fails leaves the guard unchanged (`none`), not set to "now". -/
theorem C7_counterexample :
    send_6h_reminders none ⟨2025, 11, 29, 13, 30, 0, 0⟩
        [Entry.dict 1 (some "A") (some "Sat 29/11")] true true false = (none, 0) ∧
    (19800 * 1000000 : Int) <
      (toUsec (get_next_study_time ⟨2025, 11, 29, 13, 30, 0, 0⟩
          [Entry.dict 1 (some "A") (some "Sat 29/11")]) : Int) -
        (toUsec ⟨2025, 11, 29, 13, 30, 0, 0⟩ : Int) ∧
    (toUsec (get_next_study_time ⟨2025, 11, 29, 13, 30, 0, 0⟩
        [Entry.dict 1 (some "A") (some "Sat 29/11")]) : Int) -
      (toUsec ⟨2025, 11, 29, 13, 30, 0, 0⟩ : Int) < 23400 * 1000000 :=
  ⟨rfl, by decide, by decide⟩

/-- Witness for C7: with all conditions met and a succeeding send, the
notice goes out and the guard becomes the current instant. -/
theorem C7_6h_guard_on_success_only_witness :
    send_6h_reminders none ⟨2025, 11, 29, 13, 30, 0, 0⟩
        [Entry.dict 1 (some "A") (some "Sat 29/11")] true true true =
      (some ⟨2025, 11, 29, 13, 30, 0, 0⟩, 1) :=
  (C7_6h_guard_on_success_only none ⟨2025, 11, 29, 13, 30, 0, 0⟩
      [Entry.dict 1 (some "A") (some "Sat 29/11")] true true true).2.2.2
    (fun lastT h => by cases h) (by decide) (by decide)
    (by intro h; cases h) rfl rfl rfl

/-!
## C10: bounded audit logs
-/

/-- C10: every append through `log_dm` and `save_chat_message` keeps at
most 100 entries, places the new record at the end, leaves the list as a
plain append while within the bound, and keeps exactly the most recent 100
records (dropping the oldest from the front) once the bound is exceeded. -/
theorem C10_bounded_logs (logs : List DMLogEntry) (e : DMLogEntry)
    (msgs : List ChatMessage) (fu tx : String) (now : PyDateTime) :
    (log_dm logs e).length ≤ 100 ∧
    (log_dm logs e).getLast? = some e ∧
    (logs.length + 1 ≤ 100 → log_dm logs e = logs ++ [e]) ∧
    (100 < logs.length + 1 →
      log_dm logs e = (logs ++ [e]).drop (logs.length + 1 - 100)) ∧
    (save_chat_message msgs fu tx now).length ≤ 100 ∧
    (save_chat_message msgs fu tx now).getLast? = some (⟨fu, tx, now⟩ : ChatMessage) ∧
    (msgs.length + 1 ≤ 100 →
      save_chat_message msgs fu tx now = msgs ++ [(⟨fu, tx, now⟩ : ChatMessage)]) ∧
    (100 < msgs.length + 1 →
      save_chat_message msgs fu tx now =
        (msgs ++ [(⟨fu, tx, now⟩ : ChatMessage)]).drop (msgs.length + 1 - 100)) := by
  have key : ∀ (α : Type) (l : List α) (x : α),
      (if 100 < (l ++ [x]).length then
          (l ++ [x]).drop ((l ++ [x]).length - 100) else (l ++ [x])).length ≤ 100 ∧
      (if 100 < (l ++ [x]).length then
          (l ++ [x]).drop ((l ++ [x]).length - 100) else (l ++ [x])).getLast? = some x ∧
      (l.length + 1 ≤ 100 →
        (if 100 < (l ++ [x]).length then
          (l ++ [x]).drop ((l ++ [x]).length - 100) else (l ++ [x])) = l ++ [x]) ∧
      (100 < l.length + 1 →
        (if 100 < (l ++ [x]).length then
          (l ++ [x]).drop ((l ++ [x]).length - 100) else (l ++ [x])) =
          (l ++ [x]).drop (l.length + 1 - 100)) := by
    intro α l x
    have hlen : (l ++ [x]).length = l.length + 1 := by
      rw [List.length_append, List.length_singleton]
    by_cases h : 100 < (l ++ [x]).length
    · rw [if_pos h]
      rw [hlen] at h
      refine ⟨?_, ?_, fun hc => by omega, fun _ => by rw [hlen]⟩
      · rw [List.length_drop, hlen]
        omega
      · rw [List.drop_append_eq_append_drop]
        have h0 : l.length + 1 - 100 - l.length = 0 := by omega
        rw [hlen, h0, List.drop_zero, List.getLast?_concat]
    · rw [if_neg h]
      rw [hlen] at h
      exact ⟨by omega, List.getLast?_concat l, fun _ => rfl, fun hc => by omega⟩
  have k1 := key DMLogEntry logs e
  have k2 := key ChatMessage msgs (⟨fu, tx, now⟩ : ChatMessage)
  exact ⟨k1.1, k1.2.1, k1.2.2.1, k1.2.2.2, k2.1, k2.2.1, k2.2.2.1, k2.2.2.2⟩

/-- Witness for C10: an append to an empty log is the one-element log. -/
theorem C10_bounded_logs_witness :
    log_dm [] ⟨⟨2025, 11, 28, 19, 0, 0, 0⟩, 1, "A", "24h_reminder", "sent"⟩ =
      [⟨⟨2025, 11, 28, 19, 0, 0, 0⟩, 1, "A", "24h_reminder", "sent"⟩] :=
  (C10_bounded_logs [] ⟨⟨2025, 11, 28, 19, 0, 0, 0⟩, 1, "A", "24h_reminder", "sent"⟩
    [] "" "" ⟨2025, 11, 28, 19, 0, 0, 0⟩).2.2.1 (by norm_num)

/-!
## C8: format / parse round trip
-/

theorem splitWsAux_nil (acc : List Char) :
    splitWsAux [] acc = if acc = [] then [] else [acc.reverse] := rfl

theorem splitWsAux_cons (c : Char) (cs acc : List Char) :
    splitWsAux (c :: cs) acc =
      if isSpaceCh c then
        (if acc = [] then splitWsAux cs [] else acc.reverse :: splitWsAux cs [])
      else splitWsAux cs (c :: acc) := rfl

theorem splitWsAux_nonspace (l : List Char) :
    ∀ acc, (∀ c ∈ l, isSpaceCh c = false) →
      splitWsAux l acc = if acc = [] ∧ l = [] then [] else [acc.reverse ++ l] := by
  induction l with
  | nil =>
    intro acc h
    rw [splitWsAux_nil]
    cases acc <;> simp
  | cons c cs ih =>
    intro acc h
    have hc : isSpaceCh c = false := h c (List.mem_cons_self _ _)
    rw [splitWsAux_cons, hc, if_neg Bool.false_ne_true]
    rw [ih (c :: acc) (fun c' h' => h c' (List.mem_cons_of_mem _ h'))]
    simp [List.reverse_cons]

theorem splitWsAux_token (u t : List Char) :
    ∀ acc, (∀ c ∈ t, isSpaceCh c = false) →
      splitWsAux (t ++ ' ' :: u) acc =
        (if acc = [] ∧ t = [] then [] else [acc.reverse ++ t]) ++ splitWsAux u [] := by
  induction t with
  | nil =>
    intro acc h
    rw [List.nil_append, splitWsAux_cons,
      show isSpaceCh ' ' = true from rfl, if_pos rfl]
    cases acc <;> simp
  | cons c cs ih =>
    intro acc h
    have hc : isSpaceCh c = false := h c (List.mem_cons_self _ _)
    rw [List.cons_append, splitWsAux_cons, hc, if_neg Bool.false_ne_true]
    rw [ih (c :: acc) (fun c' h' => h c' (List.mem_cons_of_mem _ h'))]
    simp [List.reverse_cons]

theorem splitWs_two_tokens (t u : List Char) (ht0 : t ≠ [])
    (ht : ∀ c ∈ t, isSpaceCh c = false) (hu0 : u ≠ [])
    (hu : ∀ c ∈ u, isSpaceCh c = false) :
    splitWs (t ++ ' ' :: u) = [t, u] := by
  unfold splitWs
  rw [splitWsAux_token u t [] ht, splitWsAux_nonspace u [] hu]
  simp [ht0, hu0]

theorem splitSlashAux_nil (acc : List Char) :
    splitSlashAux [] acc = [acc.reverse] := rfl

theorem splitSlashAux_cons (c : Char) (cs acc : List Char) :
    splitSlashAux (c :: cs) acc =
      if c = '/' then acc.reverse :: splitSlashAux cs []
      else splitSlashAux cs (c :: acc) := rfl

theorem splitSlashAux_noslash (l : List Char) :
    ∀ acc, (∀ c ∈ l, c ≠ '/') → splitSlashAux l acc = [acc.reverse ++ l] := by
  induction l with
  | nil => intro acc h; rw [splitSlashAux_nil]; simp
  | cons c cs ih =>
    intro acc h
    have hc : c ≠ '/' := h c (List.mem_cons_self _ _)
    rw [splitSlashAux_cons, if_neg hc]
    rw [ih (c :: acc) (fun c' h' => h c' (List.mem_cons_of_mem _ h'))]
    simp [List.reverse_cons]

theorem splitSlashAux_token (u t : List Char) :
    ∀ acc, (∀ c ∈ t, c ≠ '/') →
      splitSlashAux (t ++ '/' :: u) acc = (acc.reverse ++ t) :: splitSlashAux u [] := by
  induction t with
  | nil =>
    intro acc h
    rw [List.nil_append, splitSlashAux_cons, if_pos rfl]
    simp
  | cons c cs ih =>
    intro acc h
    have hc : c ≠ '/' := h c (List.mem_cons_self _ _)
    rw [List.cons_append, splitSlashAux_cons, if_neg hc]
    rw [ih (c :: acc) (fun c' h' => h c' (List.mem_cons_of_mem _ h'))]
    simp [List.reverse_cons]

theorem splitSlash_two (t u : List Char) (ht : ∀ c ∈ t, c ≠ '/')
    (hu : ∀ c ∈ u, c ≠ '/') :
    splitSlash (t ++ '/' :: u) = [t, u] := by
  unfold splitSlash
  rw [splitSlashAux_token u t [] ht, splitSlashAux_noslash u [] hu]
  simp

theorem pad2_chars : ∀ n, n < 100 → ∀ c ∈ pad2 n, isSpaceCh c = false ∧ c ≠ '/' := by
  decide

theorem pyInt_pad2 : ∀ n, n < 100 → pyInt (pad2 n) = some (Int.ofNat n) := by
  decide

theorem dayName_ne_nil (w : Nat) : dayName w ≠ [] := by
  unfold dayName
  split <;> decide

theorem dayName_nonspace (w : Nat) : ∀ c ∈ dayName w, isSpaceCh c = false := by
  unfold dayName
  split <;> decide

theorem daysInMonth_le_31 (y m : Nat) : daysInMonth y m ≤ 31 := by
  unfold daysInMonth
  split_ifs <;> norm_num

theorem parseDayMonth_format (t : PyDateTime) (hd : t.day < 100) (hm : t.month < 100) :
    parseDayMonth (format_date t) = some (Int.ofNat t.day, Int.ofNat t.month) := by
  unfold parseDayMonth format_date
  have hdata : (String.mk (dayName (weekday t.year t.month t.day) ++
      (' ' :: (pad2 t.day ++ ('/' :: pad2 t.month))))).data =
      dayName (weekday t.year t.month t.day) ++
        (' ' :: (pad2 t.day ++ ('/' :: pad2 t.month))) := rfl
  rw [hdata]
  have hu0 : pad2 t.day ++ ('/' :: pad2 t.month) ≠ [] := by
    intro hc
    have := congrArg List.length hc
    simp [pad2] at this
  have hunos : ∀ c ∈ pad2 t.day ++ ('/' :: pad2 t.month), isSpaceCh c = false := by
    intro c hc
    rcases List.mem_append.mp hc with h | h
    · exact (pad2_chars t.day hd c h).1
    · rcases List.mem_cons.mp h with rfl | h
      · decide
      · exact (pad2_chars t.month hm c h).1
  have h1 := splitWs_two_tokens (dayName (weekday t.year t.month t.day))
    (pad2 t.day ++ ('/' :: pad2 t.month))
    (dayName_ne_nil _) (dayName_nonspace _) hu0 hunos
  simp only [h1, List.getLast?_cons_cons, List.getLast?_singleton]
  have h2 := splitSlash_two (pad2 t.day) (pad2 t.month)
    (fun c h => (pad2_chars t.day hd c h).2) (fun c h => (pad2_chars t.month hm c h).2)
  simp only [h2, pyInt_pad2 t.day hd, pyInt_pad2 t.month hm]

theorem mkStudyDT_fields {y : Nat} {m d : Int} {t : PyDateTime}
    (h : mkStudyDT y m d = some t) :
    t = ⟨y, m.toNat, d.toNat, STUDY_HOUR, STUDY_MINUTE, 0, 0⟩ := by
  unfold mkStudyDT at h
  split_ifs at h with hc
  exact (Option.some_injective _ h).symm

/-- C8 (amended): whenever `parse_date_string (format_date d)` succeeds,
the result keeps the day and month of `d` and carries the fixed session
hour and minute; the weekday is preserved exactly when the parse resolves
into the same year as `d` (the counterexample shows the year roll changes
the weekday, so "preserves the weekday while the year may differ" fails). -/
theorem C8_roundtrip_day_month (now t r : PyDateTime) (hv : ValidDT t)
    (h : parse_date_string now (format_date t) = some r) :
    r.day = t.day ∧ r.month = t.month ∧ r.hour = STUDY_HOUR ∧
    r.minute = STUDY_MINUTE ∧
    (r.year = t.year → weekday r.year r.month r.day = weekday t.year t.month t.day) := by
  obtain ⟨-, -, -, hm12, -, hdle, -, -, -, -⟩ := hv
  have hd : t.day < 100 := lt_of_le_of_lt hdle (by
    have := daysInMonth_le_31 t.year t.month
    omega)
  have hm : t.month < 100 := by omega
  rw [parse_eq_resolve_of_pdm (parseDayMonth_format t hd hm)] at h
  cases h1 : mkStudyDT now.year (Int.ofNat t.month) (Int.ofNat t.day) with
  | none => rw [resolve_eq_none_of_mk h1] at h; cases h
  | some t1 =>
    rw [resolve_eq_ite_of_mk h1] at h
    by_cases hlt : toUsec t1 < toUsec now
    · rw [if_pos hlt] at h
      have hf := mkStudyDT_fields h
      subst hf
      exact ⟨rfl, rfl, rfl, rfl,
        fun hy => congrArg (fun z => weekday z t.month t.day) hy⟩
    · rw [if_neg hlt] at h
      have hf : t1 = r := Option.some_injective _ h
      have hf1 := mkStudyDT_fields h1
      rw [← hf, hf1]
      exact ⟨rfl, rfl, rfl, rfl,
        fun hy => congrArg (fun z => weekday z t.month t.day) hy⟩

/-- Counterexample for C8 as stated: `d` = Sat 29 Nov 2025 formats to
"Sat 29/11"; parsed on 25 Dec 2025 the this-year occurrence has passed, so
the parse resolves to 29 Nov 2026 - a Sunday.  The round trip changed the
weekday, refuting "preserves d's weekday with only the year allowed to
differ". -/
theorem C8_counterexample :
    parse_date_string ⟨2025, 12, 25, 12, 0, 0, 0⟩
        (format_date ⟨2025, 11, 29, 19, 30, 0, 0⟩) =
      some ⟨2026, 11, 29, 19, 30, 0, 0⟩ ∧
    weekday 2025 11 29 = 5 ∧ weekday 2026 11 29 = 6 :=
  ⟨rfl, by decide, by decide⟩

/-- Witness for C8 at a parse that stays within the year. -/
theorem C8_roundtrip_day_month_witness :
    (⟨2025, 11, 29, 19, 30, 0, 0⟩ : PyDateTime).day =
      (⟨2025, 11, 29, 19, 30, 0, 0⟩ : PyDateTime).day ∧
    (⟨2025, 11, 29, 19, 30, 0, 0⟩ : PyDateTime).month =
      (⟨2025, 11, 29, 19, 30, 0, 0⟩ : PyDateTime).month ∧
    (⟨2025, 11, 29, 19, 30, 0, 0⟩ : PyDateTime).hour = STUDY_HOUR ∧
    (⟨2025, 11, 29, 19, 30, 0, 0⟩ : PyDateTime).minute = STUDY_MINUTE ∧
    ((⟨2025, 11, 29, 19, 30, 0, 0⟩ : PyDateTime).year =
        (⟨2025, 11, 29, 19, 30, 0, 0⟩ : PyDateTime).year →
      weekday 2025 11 29 = weekday 2025 11 29) :=
  C8_roundtrip_day_month ⟨2025, 11, 1, 9, 0, 0, 0⟩ ⟨2025, 11, 29, 19, 30, 0, 0⟩
    ⟨2025, 11, 29, 19, 30, 0, 0⟩ (by decide) rfl
